import Mathlib

/-!
Shallow embedding of the usbcat event loop (src/usbcat.c).

The program bridges standard input / standard output and a pair of USB bulk
endpoints.  We model the loop state (the two `struct buffer_queue_t` values,
the poll interest bits they toggle, and ghost in-flight transfer counters),
the libusb completion callback `usb_callback`, the three per-descriptor
handlers of the `while` loop in `main`, and the loop itself as a function
consuming a list of poll results.  External behaviour (poll readiness,
read/write results, transfer completions, submission results) is an input
event; a legality predicate captures what a POSIX poll and libusb can
actually deliver for a given state.
-/

namespace Usbcat

/-- Enum constant from usbcat.c. -/
def USB_XFER_SZ : Nat := 512

/-- Enum constant from usbcat.c: number of ring slots per direction. -/
def USB_BUFS : Nat := 2

/-- errno value EINTR (the only errno the read/write handlers retry). -/
def EINTR : Nat := 4

/-- errno value EAGAIN (= EWOULDBLOCK on Linux). -/
def EAGAIN : Nat := 11

/-- Model of `struct buffer_queue_t`.  `pollin` / `pollout` are the POLLIN
resp. POLLOUT bits of the `pollfd->events` mask the queue toggles (the
POLLHUP / POLLERR bits are always set and therefore not tracked).  `slots`
records, per ring slot, the `actual_length` of the transfer stored there
(line 85-86 stores the completed transfer in the slot; line 481 reads its
`actual_length`).  `xfer_length` / `xfer_written` are uninitialised in the C
code and first written by the callback; we start them at 0. -/
structure BufferQueue where
  buf_tail : Nat
  buf_head : Nat
  pollin : Bool
  pollout : Bool
  slots : List Nat
  xfer_length : Nat
  xfer_written : Nat
  shutdown : Bool
  error : Bool
deriving DecidableEq

/-- The libusb transfer completion statuses consumed by `usb_callback`. -/
inductive XferStatus where
  | completed
  | timedOut
  | transferError
  | cancelled
  | stall
  | noDevice
  | overflow
deriving DecidableEq

/-- Statuses handled by the terminal (error) arm of the callback switch. -/
def isTerminal : XferStatus → Bool
  | .completed => false
  | .timedOut => false
  | _ => true

/-- Result of running `usb_callback` on one queue: the updated queue, an
assert failure (abort), or a fatal `exit(1)` (re-submission failure of a
timed-out transfer). -/
inductive CbRes where
  | ok (q : BufferQueue)
  | assertViolated
  | fatal
deriving DecidableEq

/-- `usb_callback` (usbcat.c lines 70-120).  `dirIn` is the endpoint
direction bit (`xfer->endpoint & LIBUSB_ENDPOINT_DIR_MASK`): true for the IN
endpoint (device to stdout queue), false for the OUT endpoint (stdin to
device queue).  `resubmitOk` is the environment result of the
`libusb_submit_transfer` call in the timed-out arm. -/
def usb_callback (dirIn : Bool) (status : XferStatus) (actualLength : Nat)
    (resubmitOk : Bool) (q : BufferQueue) : CbRes :=
  let buf_tail := (q.buf_tail + 1) % USB_BUFS
  if q.buf_head = buf_tail then
    .assertViolated
  else
    match status with
    | .completed =>
      let q1 := { q with slots := q.slots.set q.buf_tail actualLength }
      if q1.buf_head = q1.buf_tail then
        if (if dirIn then q1.pollout else q1.pollin) then
          .assertViolated
        else if q1.shutdown then
          .ok { q1 with buf_tail := buf_tail }
        else
          let q2 := if dirIn then { q1 with pollout := true } else { q1 with pollin := true }
          .ok { q2 with xfer_written := 0, xfer_length := actualLength, buf_tail := buf_tail }
      else
        .ok { q1 with buf_tail := buf_tail }
    | .timedOut =>
      if resubmitOk then .ok q else .fatal
    | _ =>
      .ok { q with error := true }

/-- Result of `read(2)` on stdin as seen by the input handler: positive
byte count (with the environment result of the subsequent
`libusb_submit_transfer`), end of file, or a failure with an errno. -/
inductive ReadRes where
  | bytes (n : Nat) (submitOk : Bool)
  | eof
  | failed (errno : Nat)
deriving DecidableEq

/-- Result of `write(2)` on stdout: a count of 0 or more bytes consumed
(with the environment result of the re-submission when the buffer drains
fully), or a failure with an errno. -/
inductive WriteRes where
  | wrote (k : Nat) (submitOk : Bool)
  | failed (errno : Nat)
deriving DecidableEq

/-- Readiness reported by poll for stdin: the POLLIN bit of revents, the
POLLHUP / POLLERR bits (folded into one flag since the handler treats them
identically), and the result of the read that the handler would perform. -/
structure StdinR where
  pollin : Bool
  hupErr : Bool
  rd : ReadRes
deriving DecidableEq

/-- Readiness reported by poll for stdout. -/
structure StdoutR where
  pollout : Bool
  hupErr : Bool
  wr : WriteRes
deriving DecidableEq

/-- One transfer completion delivered inside `libusb_handle_events_timeout`. -/
structure Completion where
  dirIn : Bool
  status : XferStatus
  actualLength : Nat
  resubmitOk : Bool
deriving DecidableEq

/-- Readiness of the libusb descriptors: the batch of completions the
`libusb_handle_events_timeout` call delivers (in order), plus its own
return status. -/
structure UsbReady where
  batch : List Completion
  handleOk : Bool
deriving DecidableEq

/-- One successful poll return: which of the (up to three kinds of)
descriptors are ready.  `none` means the descriptor is absent or silent. -/
structure PollReady where
  stdin : Option StdinR
  stdout : Option StdoutR
  usb : Option UsbReady
deriving DecidableEq

/-- One iteration input: either a successful poll or a poll failure with an
errno (usbcat.c lines 513-520). -/
inductive PollRes where
  | ready (p : PollReady)
  | pollFail (errno : Nat)
deriving DecidableEq

/-- Observable calls the loop body makes, in order. -/
inductive Action where
  | readCall
  | writeCall (offset span : Nat)
  | submitOut (len : Nat)
  | submitIn
  | resubmitXfer (dirIn : Bool)
deriving DecidableEq

/-- Whole-loop state: the two queues (`usb_write_buf` = stdin to device,
`usb_read_buf` = device to stdout), which endpoints are configured, and
ghost counters of transfers currently submitted to libusb per direction. -/
structure State where
  wq : BufferQueue
  rq : BufferQueue
  write_ep : Bool
  read_ep : Bool
  wInFlight : Nat
  rInFlight : Nat
deriving DecidableEq

/-- Result of one loop-body stage. -/
inductive HRes where
  | next (s : State) (acts : List Action)
  | fatal (acts : List Action)
  | assertViolated (acts : List Action)
deriving DecidableEq

/-- Stdin readiness handler (usbcat.c lines 395-448).  Entered only when
`fds[i].events & fds[i].revents` is non-zero; the events mask is
POLLIN (when not masked out) plus POLLHUP and POLLERR. -/
def handle_stdin (s : State) (r : Option StdinR) : HRes :=
  match r with
  | none => .next s []
  | some r =>
    if (r.pollin && s.wq.pollin) || r.hupErr then
      if r.pollin then
        if s.wq.buf_head = s.wq.buf_tail then
          .assertViolated []
        else
          match r.rd with
          | .bytes n submitOk =>
            if submitOk then
              let buf_head := (s.wq.buf_head + 1) % USB_BUFS
              let pollin := if buf_head = s.wq.buf_tail then false else s.wq.pollin
              .next { s with
                        wq := { s.wq with buf_head := buf_head, pollin := pollin },
                        wInFlight := s.wInFlight + 1 }
                    [.readCall, .submitOut n]
            else
              .fatal [.readCall, .submitOut n]
          | .eof =>
            .next { s with wq := { s.wq with shutdown := true } } [.readCall]
          | .failed errno =>
            if errno = EINTR then .next s [.readCall] else .fatal [.readCall]
      else
        .next { s with wq := { s.wq with shutdown := true } } []
    else
      .next s []

/-- Stdout readiness handler (usbcat.c lines 450-497).  Note: unlike the
stdin handler, the body does not test `revents & POLLOUT`; it runs whenever
the events/revents intersection is non-empty, including on POLLHUP or
POLLERR alone. -/
def handle_stdout (s : State) (r : Option StdoutR) : HRes :=
  match r with
  | none => .next s []
  | some r =>
    if (r.pollout && s.rq.pollout) || r.hupErr then
      if s.rq.buf_head = s.rq.buf_tail then
        .assertViolated []
      else
        let offset := s.rq.xfer_written
        let span := s.rq.xfer_length - s.rq.xfer_written
        match r.wr with
        | .wrote k submitOk =>
          let written := s.rq.xfer_written + k
          if written = s.rq.xfer_length then
            if submitOk then
              let buf_head := (s.rq.buf_head + 1) % USB_BUFS
              let rq1 := { s.rq with xfer_written := written, buf_head := buf_head }
              let rq2 :=
                if buf_head = rq1.buf_tail then
                  { rq1 with pollout := false }
                else
                  { rq1 with xfer_written := 0, xfer_length := rq1.slots.getD buf_head 0 }
              .next { s with rq := rq2, rInFlight := s.rInFlight + 1 }
                    [.writeCall offset span, .submitIn]
            else
              .fatal [.writeCall offset span, .submitIn]
          else
            .next { s with rq := { s.rq with xfer_written := written } }
                  [.writeCall offset span]
        | .failed errno =>
          if errno = EINTR then .next s [.writeCall offset span]
          else .fatal [.writeCall offset span]
    else
      .next s []

/-- Selects the queue a completion belongs to (the `user_data` pointer the
transfer was filled with: IN transfers carry `usb_read_buf`, OUT transfers
`usb_write_buf`). -/
def queueOf (s : State) (dirIn : Bool) : BufferQueue :=
  if dirIn then s.rq else s.wq

/-- Stores back the queue selected by `queueOf`. -/
def setQueue (s : State) (dirIn : Bool) (q : BufferQueue) : State :=
  if dirIn then { s with rq := q } else { s with wq := q }

/-- State update accompanying one successful callback invocation: store the
updated queue back and decrement the ghost in-flight counter for every
completion that is not re-submitted (a timed-out transfer is re-submitted
inside the callback and stays in flight). -/
def after_cb (s : State) (c : Completion) (q : BufferQueue) : State :=
  let s1 := setQueue s c.dirIn q
  if c.status = .timedOut then s1
  else if c.dirIn then { s1 with rInFlight := s1.rInFlight - 1 }
  else { s1 with wInFlight := s1.wInFlight - 1 }

/-- Actions emitted by one callback invocation. -/
def cb_acts (c : Completion) : List Action :=
  if c.status = .timedOut then [.resubmitXfer c.dirIn] else []

/-- Runs the completion callbacks of one `libusb_handle_events_timeout`
call, in order, threading the state. -/
def run_callbacks (s : State) : List Completion → HRes
  | [] => .next s []
  | c :: cs =>
    match usb_callback c.dirIn c.status c.actualLength c.resubmitOk (queueOf s c.dirIn) with
    | .ok q =>
      match run_callbacks (after_cb s c q) cs with
      | .next s3 acts2 => .next s3 (cb_acts c ++ acts2)
      | .fatal acts2 => .fatal (cb_acts c ++ acts2)
      | .assertViolated acts2 => .assertViolated (cb_acts c ++ acts2)
    | .assertViolated => .assertViolated []
    | .fatal => .fatal [.resubmitXfer c.dirIn]

/-- USB descriptor handler (usbcat.c lines 498-509): run the pending
completion callbacks, then fail fatally if `libusb_handle_events_timeout`
itself reported an error. -/
def handle_usb (s : State) (r : Option UsbReady) : HRes :=
  match r with
  | none => .next s []
  | some u =>
    match run_callbacks s u.batch with
    | .next s1 acts => if u.handleOk then .next s1 acts else .fatal acts
    | .fatal acts => .fatal acts
    | .assertViolated acts => .assertViolated acts

/-- Sequencing of loop-body stages: a fatal or assert outcome short-circuits
(the C code returns / aborts immediately). -/
def seqH (h : HRes) (f : State → HRes) : HRes :=
  match h with
  | .next s acts =>
    match f s with
    | .next s1 acts2 => .next s1 (acts ++ acts2)
    | .fatal acts2 => .fatal (acts ++ acts2)
    | .assertViolated acts2 => .assertViolated (acts ++ acts2)
  | .fatal acts => .fatal acts
  | .assertViolated acts => .assertViolated acts

/-- One iteration of the loop body for one poll return.  The fds array is
scanned in order stdin, stdout, libusb descriptors, and the body stops after
handling the libusb descriptors, so the three stages run in this order. -/
def step (s : State) (e : PollRes) : HRes :=
  match e with
  | .pollFail errno => if errno = EINTR then .next s [] else .fatal []
  | .ready p =>
    seqH (handle_stdin s p.stdin) (fun s1 =>
      seqH (handle_stdout s1 p.stdout) (fun s2 =>
        handle_usb s2 p.usb))

/-- The `while` condition of the event loop (usbcat.c lines 383-386). -/
def loop_continue (s : State) : Bool :=
  !s.wq.error && !s.rq.error &&
    (!s.wq.shutdown || (s.wq.buf_tail + 1) % USB_BUFS != s.wq.buf_head)

/-- Final outcome of a run of the loop (and of `main` after it):
`exited c` is a process exit with code `c`, `aborted` an assert failure,
`blocked s` means the supplied event list was exhausted while the loop was
still polling. -/
inductive Outcome where
  | exited (code : Nat)
  | aborted
  | blocked (s : State)
deriving DecidableEq

/-- Runs the event loop on a list of poll results.  When the `while`
condition fails the code falls through to lines 523-527 and returns
`EXIT_SUCCESS`; fatal paths inside the body return `EXIT_FAILURE` (1). -/
def run : List PollRes → State → Outcome × List Action
  | [], s => if loop_continue s then (.blocked s, []) else (.exited 0, [])
  | e :: rest, s =>
    if loop_continue s then
      match step s e with
      | .next s1 acts =>
        let r := run rest s1
        (r.1, acts ++ r.2)
      | .fatal acts => (.exited 1, acts)
      | .assertViolated acts => (.aborted, acts)
    else
      (.exited 0, [])

/-- Number of transfer/buffer pairs allocated per enabled direction at
startup: the allocation loops (usbcat.c lines 313-318 and 345-359) both run
for `i != USB_BUFS - 1` iterations. -/
def buffers_per_direction : Nat := USB_BUFS - 1

/-- Initial `usb_write_buf` (usbcat.c lines 299-329).  With a write endpoint
the tail starts at `USB_BUFS - 1` (the ring holds the one free buffer) and
stdin is polled with POLLIN | POLLHUP | POLLERR; without one the queue is
head = tail = 0 and stdin is not in the poll set at all. -/
def init_wq (write_ep : Bool) : BufferQueue :=
  { buf_tail := if write_ep then USB_BUFS - 1 else 0
    buf_head := 0
    pollin := write_ep
    pollout := false
    slots := [0, 0]
    xfer_length := 0
    xfer_written := 0
    shutdown := false
    error := false }

/-- Initial `usb_read_buf` (usbcat.c lines 331-369): empty ring, stdout
polled only for POLLHUP | POLLERR until data arrives. -/
def init_rq : BufferQueue :=
  { buf_tail := 0
    buf_head := 0
    pollin := false
    pollout := false
    slots := [0, 0]
    xfer_length := 0
    xfer_written := 0
    shutdown := false
    error := false }

/-- Initial loop state.  With a read endpoint, `USB_BUFS - 1` IN transfers
are submitted before the loop starts (lines 345-359), so that many IN
transfers are in flight. -/
def init_state (write_ep read_ep : Bool) : State :=
  { wq := init_wq write_ep
    rq := init_rq
    write_ep := write_ep
    read_ep := read_ep
    wInFlight := 0
    rInFlight := if read_ep then USB_BUFS - 1 else 0 }

/-- Legality of a read result: `read` returns at most the requested
`USB_XFER_SZ / 2` bytes, and the positive arm means at least one byte. -/
def legal_read : ReadRes → Bool
  | .bytes n _ => 0 < n && n ≤ USB_XFER_SZ / 2
  | _ => true

/-- Legality of a stdin readiness report for a state: stdin is in the poll
set only when a write endpoint is configured; poll reports at least one of
the subscribed condition bits, and reports POLLIN only when POLLIN is
currently subscribed. -/
def legal_stdin (s : State) : Option StdinR → Bool
  | none => true
  | some r =>
    s.write_ep && (r.pollin || r.hupErr) &&
      (!r.pollin || (s.wq.pollin && legal_read r.rd))

/-- Legality of a write result: `write` consumes at most the span it was
offered. -/
def legal_write (s : State) : WriteRes → Bool
  | .wrote k _ => k ≤ s.rq.xfer_length - s.rq.xfer_written
  | .failed _ => true

/-- Legality of a stdout readiness report: stdout is in the poll set only
when a read endpoint is configured; POLLOUT is reported only when
subscribed; POLLHUP / POLLERR may always be reported. -/
def legal_stdout (s : State) : Option StdoutR → Bool
  | none => true
  | some r =>
    s.read_ep && (r.pollout || r.hupErr) &&
      (!r.pollout || s.rq.pollout) && legal_write s r.wr

/-- Legality of a completion batch given the number of outbound (`w`) and
inbound (`r`) transfers currently in flight: every completion consumes an
in-flight transfer of its direction; a timed-out completion is re-submitted
by the callback and remains in flight. -/
def legal_batch : Nat → Nat → List Completion → Bool
  | _, _, [] => true
  | w, r, c :: cs =>
    if c.dirIn then
      match c.status with
      | .timedOut => 0 < r && legal_batch w r cs
      | _ => 0 < r && legal_batch w (r - 1) cs
    else
      match c.status with
      | .timedOut => 0 < w && legal_batch w r cs
      | _ => 0 < w && legal_batch (w - 1) r cs

/-- Legality of one poll result for a state. -/
def legal_poll (s : State) : PollRes → Bool
  | .pollFail _ => true
  | .ready p =>
    legal_stdin s p.stdin && legal_stdout s p.stdout &&
      (match p.usb with
       | none => true
       | some u => legal_batch s.wInFlight s.rInFlight u.batch)

/-- States the loop reaches from `s0` by processing legal poll results
while the loop condition holds. -/
inductive Reach (s0 : State) : State → Prop where
  | refl : Reach s0 s0
  | more {s s1 : State} {e : PollRes} {acts : List Action} :
      Reach s0 s → loop_continue s = true → legal_poll s e = true →
      step s e = .next s1 acts → Reach s0 s1

/-- Number of occupied ring slots: `(tail - head) mod USB_BUFS`. -/
def occ (q : BufferQueue) : Nat :=
  (q.buf_tail + USB_BUFS - q.buf_head) % USB_BUFS

/-- Concrete event: a read of one byte from stdin while the ring has a free
slot (used as a reachable-trace step in several statements below). -/
def ev_read1 : PollRes := .ready ⟨some ⟨true, false, .bytes 1 true⟩, none, none⟩

/-- Concrete event: POLLHUP on stdin while POLLIN interest is withdrawn. -/
def ev_hup_stdin : PollRes := .ready ⟨some ⟨false, true, .eof⟩, none, none⟩

/-- State after `ev_read1` from `init_state true true`: the single outbound
buffer is in flight, the ring has no free slot, POLLIN is withdrawn. -/
def s_inflight : State :=
  { wq := { buf_tail := 1, buf_head := 1, pollin := false, pollout := false,
            slots := [0, 0], xfer_length := 0, xfer_written := 0,
            shutdown := false, error := false }
    rq := init_rq
    write_ep := true
    read_ep := true
    wInFlight := 1
    rInFlight := 1 }

/-- State after `ev_hup_stdin` from `s_inflight`: shutdown is flagged while
the single outbound buffer is still in flight. -/
def s_drain : State :=
  { s_inflight with wq := { s_inflight.wq with shutdown := true } }

/-- Action list carried by a handler result. -/
def hres_acts : HRes → List Action
  | .next _ acts => acts
  | .fatal acts => acts
  | .assertViolated acts => acts

/-- Concrete event: a stall completion on the inbound (IN endpoint)
transfer. -/
def cmp_stall : Completion := ⟨true, .stall, 0, true⟩

/-- Concrete usb readiness delivering only `cmp_stall`. -/
def u_stall : UsbReady := ⟨[cmp_stall], true⟩

/-- Concrete poll result delivering only `cmp_stall`. -/
def pr_stall : PollReady := ⟨none, none, some u_stall⟩

/-- The poll result `pr_stall` as a loop event. -/
def ev_stall_in : PollRes := .ready pr_stall

/-- State after `ev_stall_in` from the bidirectional initial state: the
inbound error flag is set. -/
def s_errored : State :=
  { init_state true true with rq := { init_rq with error := true }, rInFlight := 0 }

/-- Concrete event: a read failure with errno EAGAIN (would-block). -/
def ev_eagain : PollRes := .ready ⟨some ⟨true, false, .failed EAGAIN⟩, none, none⟩

/-- Concrete event: a zero-length read (end of input) on stdin. -/
def ev_eof : PollRes := .ready ⟨some ⟨true, false, .eof⟩, none, none⟩

/-- Concrete event: POLLHUP / POLLERR reported on stdout (no POLLOUT). -/
def ev_hup_stdout : PollRes := .ready ⟨none, some ⟨false, true, .wrote 0 true⟩, none⟩

/-- Concrete event: successful completion of the in-flight outbound
transfer. -/
def ev_complete_out : PollRes := .ready ⟨none, none, some ⟨[⟨false, .completed, 4, true⟩], true⟩⟩

/-- State after `ev_complete_out` from `s_drain`: the freed buffer sits in
the ring but POLLIN interest was not re-asserted because shutdown is set. -/
def s_after_drain : State :=
  { s_drain with wq := { s_drain.wq with buf_tail := 0, slots := [0, 4] },
                 wInFlight := 0 }

/-- Concrete state with one inbound buffer of 10 bytes pending delivery to
stdout and nothing written yet. -/
def s_c8 : State :=
  { wq := init_wq true
    rq := { buf_tail := 1, buf_head := 0, pollin := false, pollout := true,
            slots := [10, 0], xfer_length := 10, xfer_written := 0,
            shutdown := false, error := false }
    write_ep := true
    read_ep := true
    wInFlight := 0
    rInFlight := 0 }

/-- Reachable-state invariant of the loop, for a run configured with
endpoints `we` (write endpoint given) and `re` (read endpoint given).
`wsum` / `rsum` say that the allocated `USB_BUFS - 1` buffers of a direction
are split between the ring and the transfers in flight; `wpoll` / `wpoll2` /
`rpoll` capture the interest-mask gating; `rshut` records that only the
outbound queue ever has its shutdown flag raised. -/
structure Inv (we re : Bool) (s : State) : Prop where
  weq : s.write_ep = we
  req : s.read_ep = re
  wtl : s.wq.buf_tail < USB_BUFS
  whd : s.wq.buf_head < USB_BUFS
  rtl : s.rq.buf_tail < USB_BUFS
  rhd : s.rq.buf_head < USB_BUFS
  wsum : s.wInFlight + occ s.wq ≤ (if we then USB_BUFS - 1 else 0)
  rsum : s.rInFlight + occ s.rq ≤ (if re then USB_BUFS - 1 else 0)
  wpoll : s.wq.pollin = true → s.wq.buf_head ≠ s.wq.buf_tail
  wpoll2 : s.wq.shutdown = false →
    (s.wq.pollin = true ↔ s.wq.buf_head ≠ s.wq.buf_tail)
  rpoll : s.rq.pollout = true ↔ s.rq.buf_head ≠ s.rq.buf_tail
  rshut : s.rq.shutdown = false

/- ------------------------------------------------------------------
Structural lemmas.
------------------------------------------------------------------ -/

theorem seqH_next {h : HRes} {f : State → HRes} {s1 : State} {acts : List Action}
    (hh : seqH h f = .next s1 acts) :
    ∃ s0 a0 a1, h = .next s0 a0 ∧ f s0 = .next s1 a1 ∧ acts = a0 ++ a1 := by
  cases h with
  | next s0 a0 =>
    revert hh
    simp only [seqH]
    cases hfs : f s0 with
    | next s1x a1 => intro hh; cases hh; exact ⟨s0, a0, a1, rfl, hfs, rfl⟩
    | fatal a1 => intro hh; cases hh
    | assertViolated a1 => intro hh; cases hh
  | fatal a0 => cases hh
  | assertViolated a0 => cases hh

theorem run_loop_exit {s : State} (h : loop_continue s = false) :
    ∀ evs, run evs s = (.exited 0, []) := by
  intro evs
  cases evs <;> simp [run, h]

theorem cb_ok_fields {d : Bool} {st : XferStatus} {n : Nat} {ok : Bool}
    {q q1 : BufferQueue} (h : usb_callback d st n ok q = .ok q1) :
    q1.buf_head = q.buf_head ∧ q1.shutdown = q.shutdown ∧
      q1.error = (q.error || isTerminal st) := by
  cases st <;> cases d
  all_goals simp only [usb_callback] at h
  all_goals (try (split at h)) <;> (try (split at h)) <;> (try (split at h)) <;>
    (try (split at h)) <;> (try (split at h))
  all_goals (first
    | (injection h with h2; subst h2; simp_all [isTerminal])
    | simp_all [isTerminal])

theorem cb_timedOut_ok {d : Bool} {n : Nat} {ok : Bool} {q q1 : BufferQueue}
    (h : usb_callback d .timedOut n ok q = .ok q1) : q1 = q := by
  cases d
  all_goals simp only [usb_callback] at h
  all_goals (try (split at h)) <;> (try (split at h)) <;> (try (split at h))
  all_goals (first
    | (injection h with h2; subst h2; simp_all)
    | simp_all)

theorem cb_terminal_shape {d : Bool} {st : XferStatus} {n : Nat} {ok : Bool}
    {q q1 : BufferQueue} (ht : isTerminal st = true)
    (h : usb_callback d st n ok q = .ok q1) : q1 = { q with error := true } := by
  cases st <;> cases d
  all_goals simp only [usb_callback] at h
  all_goals (try (split at h)) <;> (try (split at h)) <;> (try (split at h)) <;>
    (try (split at h)) <;> (try (split at h))
  all_goals (first
    | (injection h with h2; subst h2; simp_all [isTerminal])
    | simp_all [isTerminal])

theorem after_cb_wq {s : State} {c : Completion} {q : BufferQueue} :
    (after_cb s c q).wq = (if c.dirIn then s.wq else q) ∧
      (after_cb s c q).rq = (if c.dirIn then q else s.rq) ∧
      (after_cb s c q).write_ep = s.write_ep ∧
      (after_cb s c q).read_ep = s.read_ep := by
  cases hd : c.dirIn <;> simp [after_cb, setQueue, hd] <;> split <;> simp

theorem rc_cons_inv {c : Completion} {cs : List Completion} {s s1 : State}
    {acts : List Action} (h : run_callbacks s (c :: cs) = .next s1 acts) :
    ∃ q acts2,
      usb_callback c.dirIn c.status c.actualLength c.resubmitOk (queueOf s c.dirIn) = .ok q ∧
        run_callbacks (after_cb s c q) cs = .next s1 acts2 ∧
        acts = cb_acts c ++ acts2 := by
  rw [run_callbacks] at h
  split at h
  · split at h
    · cases h
      rename_i q hcb s3 acts2 hrc
      exact ⟨q, acts2, hcb, hrc, rfl⟩
    · cases h
    · cases h
  · cases h
  · cases h

theorem rc_preserved {cs : List Completion} {s s1 : State} {acts : List Action}
    (h : run_callbacks s cs = .next s1 acts) :
    s1.wq.buf_head = s.wq.buf_head ∧ s1.rq.buf_head = s.rq.buf_head ∧
      s1.wq.shutdown = s.wq.shutdown ∧ s1.rq.shutdown = s.rq.shutdown ∧
      s1.write_ep = s.write_ep ∧ s1.read_ep = s.read_ep := by
  induction cs generalizing s acts with
  | nil => cases h; simp
  | cons c cs ih =>
    obtain ⟨q, acts2, hcb, hrc, -⟩ := rc_cons_inv h
    have hf := cb_ok_fields hcb
    have ha := @after_cb_wq s c q
    have hih := ih hrc
    cases hd : c.dirIn <;>
      simp [hd, queueOf] at hf ha <;>
      simp_all

theorem rc_dirIn_only {cs : List Completion} {s s1 : State} {acts : List Action}
    (hall : ∀ c ∈ cs, c.dirIn = true)
    (h : run_callbacks s cs = .next s1 acts) :
    s1.wq = s.wq ∧ s1.wInFlight = s.wInFlight := by
  induction cs generalizing s acts with
  | nil => cases h; simp
  | cons c cs ih =>
    obtain ⟨q, acts2, hcb, hrc, -⟩ := rc_cons_inv h
    have hd := hall c (by simp)
    have hkeep : (after_cb s c q).wq = s.wq ∧ (after_cb s c q).wInFlight = s.wInFlight := by
      simp only [after_cb, setQueue, hd]
      split <;> simp
    have hih := ih (fun c2 hc2 => hall c2 (by simp [hc2])) hrc
    exact ⟨hih.1.trans hkeep.1, hih.2.trans hkeep.2⟩

theorem rc_tail_completed {cs : List Completion} {s s1 : State} {acts : List Action}
    (h : run_callbacks s cs = .next s1 acts)
    (hne : s1.wq.buf_tail ≠ s.wq.buf_tail) :
    ∃ c ∈ cs, c.dirIn = false ∧ c.status = .completed := by
  induction cs generalizing s acts with
  | nil => cases h; simp at hne
  | cons c cs ih =>
    obtain ⟨q, acts2, hcb, hrc, -⟩ := rc_cons_inv h
    by_cases hkeep : (after_cb s c q).wq.buf_tail = s.wq.buf_tail
    · obtain ⟨c2, hc2, hc2p⟩ := ih hrc (by rw [hkeep]; exact hne)
      exact ⟨c2, by simp [hc2], hc2p⟩
    · refine ⟨c, by simp, ?_⟩
      have ha := @after_cb_wq s c q
      cases hd : c.dirIn
      · simp [hd] at ha
        rw [ha.1] at hkeep
        cases hst : c.status
        · exact ⟨rfl, rfl⟩
        · rw [hst] at hcb
          rw [cb_timedOut_ok hcb] at hkeep
          simp [queueOf, hd] at hkeep
        all_goals
          (rw [hst] at hcb
           rw [cb_terminal_shape (by rfl) hcb] at hkeep
           simp [queueOf, hd] at hkeep)
      · simp [hd] at ha
        rw [ha.1] at hkeep
        simp at hkeep

theorem rc_error_mono {cs : List Completion} {s s1 : State} {acts : List Action}
    (h : run_callbacks s cs = .next s1 acts) :
    (s.wq.error = true → s1.wq.error = true) ∧
      (s.rq.error = true → s1.rq.error = true) := by
  induction cs generalizing s acts with
  | nil => cases h; simp
  | cons c cs ih =>
    obtain ⟨q, acts2, hcb, hrc, -⟩ := rc_cons_inv h
    have hf := cb_ok_fields hcb
    have ha := @after_cb_wq s c q
    have hih := ih hrc
    cases hd : c.dirIn <;> simp [hd, queueOf] at hf ha <;>
      refine ⟨fun he => ?_, fun he => ?_⟩
    · exact hih.1 (by rw [ha.1, hf.2.2]; simp [queueOf, hd, he])
    · exact hih.2 (by rw [ha.2.1, he])
    · exact hih.1 (by rw [ha.1, he])
    · exact hih.2 (by rw [ha.2.1, hf.2.2]; simp [queueOf, hd, he])

theorem rc_terminal_error {cs : List Completion} {s s1 : State} {acts : List Action}
    (h : run_callbacks s cs = .next s1 acts)
    {c : Completion} (hc : c ∈ cs) (ht : isTerminal c.status = true) :
    (if c.dirIn then s1.rq.error else s1.wq.error) = true := by
  induction cs generalizing s acts with
  | nil => cases hc
  | cons c0 cs ih =>
    obtain ⟨q, acts2, hcb, hrc, -⟩ := rc_cons_inv h
    rcases List.mem_cons.mp hc with hceq | hctail
    · subst hceq
      have hq : q = { queueOf s c.dirIn with error := true } := cb_terminal_shape ht hcb
      have ha := @after_cb_wq s c q
      have hmono := rc_error_mono hrc
      cases hd : c.dirIn <;> simp [hd] at ha ⊢
      · exact hmono.1 (by rw [ha.1, hq])
      · exact hmono.2 (by rw [ha.2.1, hq])
    · exact ih hrc hctail

theorem rc_acts_resubmit {cs : List Completion} {s s1 : State} {acts : List Action}
    (h : run_callbacks s cs = .next s1 acts) :
    ∀ a ∈ acts, ∃ d, a = .resubmitXfer d := by
  induction cs generalizing s acts with
  | nil => cases h; simp
  | cons c cs ih =>
    obtain ⟨q, acts2, hcb, hrc, hacts⟩ := rc_cons_inv h
    subst hacts
    intro a ha
    rcases List.mem_append.mp ha with h1 | h2
    · simp only [cb_acts] at h1
      split at h1 <;> simp at h1
      exact ⟨c.dirIn, h1⟩
    · exact ih hrc a h2

theorem inv_set_shutdown {we re : Bool} {s : State} (inv : Inv we re s) :
    Inv we re { s with wq := { s.wq with shutdown := true } } := by
  obtain ⟨weq, req, wtl, whd, rtl, rhd, wsum, rsum, wpoll, wpoll2, rpoll, rshut⟩ := inv
  exact ⟨weq, req, wtl, whd, rtl, rhd, wsum, rsum, wpoll, by simp, rpoll, rshut⟩

theorem handle_stdin_inv {we re : Bool} {s s1 : State} {r : Option StdinR}
    {acts : List Action}
    (inv : Inv we re s) (hl : legal_stdin s r = true)
    (h : handle_stdin s r = .next s1 acts) :
    Inv we re s1 ∧ s1.rq = s.rq ∧ s1.rInFlight = s.rInFlight ∧
      s.wInFlight ≤ s1.wInFlight := by
  cases r with
  | none =>
    cases h
    exact ⟨inv, rfl, rfl, le_refl _⟩
  | some r =>
    simp only [legal_stdin, Bool.and_eq_true] at hl
    obtain ⟨⟨hwe, hor⟩, hpoll⟩ := hl
    simp only [handle_stdin] at h
    split at h
    · split at h
      · rename_i hpl
        rw [hpl] at hpoll
        simp only [Bool.not_true, Bool.false_or, Bool.and_eq_true] at hpoll
        split at h
        · cases h
        · rename_i hne
          split at h
          · rename_i n submitOk heq
            split at h
            · cases h
              have hwe2 : we = true := by rw [← inv.weq]; exact hwe
              refine ⟨⟨inv.weq, inv.req, inv.wtl, ?_, inv.rtl, inv.rhd, ?_,
                inv.rsum, ?_, ?_, inv.rpoll, inv.rshut⟩, rfl, rfl, by simp⟩
              · simp only [USB_BUFS]; omega
              · have hs := inv.wsum
                rw [hwe2] at hs ⊢
                have h1 := inv.wtl
                have h2 := inv.whd
                simp [occ, USB_BUFS] at hs h1 h2 ⊢
                omega
              · intro hp
                split at hp
                · cases hp
                · rename_i hne2
                  exact hne2
              · intro hsd
                constructor
                · intro hp
                  split at hp
                  · cases hp
                  · rename_i hne2; exact hne2
                · intro hne2
                  split
                  · rename_i heq2; exact absurd heq2 hne2
                  · exact hpoll.1
            · cases h
          · rename_i heq
            cases h
            exact ⟨inv_set_shutdown inv, rfl, rfl, le_refl _⟩
          · rename_i errno heq
            split at h
            · cases h
              exact ⟨inv, rfl, rfl, le_refl _⟩
            · cases h
      · cases h
        exact ⟨inv_set_shutdown inv, rfl, rfl, le_refl _⟩
    · cases h
      exact ⟨inv, rfl, rfl, le_refl _⟩

theorem handle_stdout_inv {we re : Bool} {s s1 : State} {r : Option StdoutR}
    {acts : List Action}
    (inv : Inv we re s) (hl : legal_stdout s r = true)
    (h : handle_stdout s r = .next s1 acts) :
    Inv we re s1 ∧ s1.wq = s.wq ∧ s1.wInFlight = s.wInFlight ∧
      s.rInFlight ≤ s1.rInFlight := by
  cases r with
  | none =>
    cases h
    exact ⟨inv, rfl, rfl, le_refl _⟩
  | some r =>
    simp only [legal_stdout, Bool.and_eq_true] at hl
    obtain ⟨⟨⟨hre, hor⟩, hpoll⟩, hwr⟩ := hl
    have hre2 : re = true := by rw [← inv.req]; exact hre
    simp only [handle_stdout] at h
    split at h
    · split at h
      · cases h
      · rename_i hne
        split at h
        · rename_i k submitOk heq
          split at h
          · rename_i hfull
            split at h
            · cases h
              have h1 := inv.rtl
              have h2 := inv.rhd
              have hs := inv.rsum
              rw [hre2] at hs
              refine ⟨⟨inv.weq, inv.req, inv.wtl, inv.whd, ?_, ?_,
                inv.wsum, ?_, inv.wpoll, inv.wpoll2, ?_, ?_⟩, rfl, rfl, by simp⟩
              · split <;> exact inv.rtl
              · split <;> (simp only [USB_BUFS]; omega)
              · rw [hre2]
                split <;>
                  (rename_i hb
                   simp [occ, USB_BUFS] at hs h1 h2 ⊢
                   omega)
              · split
                · rename_i hb
                  simp only
                  constructor
                  · intro hp; cases hp
                  · intro hcon; exact absurd hb hcon
                · rename_i hb
                  simp only
                  have : s.rq.pollout = true := inv.rpoll.mpr hne
                  rw [this]
                  simp [hb]
              · split <;> exact inv.rshut
            · cases h
          · cases h
            exact ⟨⟨inv.weq, inv.req, inv.wtl, inv.whd, inv.rtl, inv.rhd,
              inv.wsum, inv.rsum, inv.wpoll, inv.wpoll2, inv.rpoll, inv.rshut⟩,
              rfl, rfl, le_refl _⟩
        · rename_i errno heq
          split at h
          · cases h
            exact ⟨inv, rfl, rfl, le_refl _⟩
          · cases h
    · cases h
      exact ⟨inv, rfl, rfl, le_refl _⟩

theorem cb_completed_empty_out {n : Nat} {ok : Bool} {q q1 : BufferQueue}
    (hemp : q.buf_head = q.buf_tail)
    (h : usb_callback false .completed n ok q = .ok q1) :
    q.pollin = false ∧
      q1 = (if q.shutdown then
              { q with slots := q.slots.set q.buf_tail n,
                       buf_tail := (q.buf_tail + 1) % USB_BUFS }
            else
              { q with slots := q.slots.set q.buf_tail n, pollin := true,
                       xfer_written := 0, xfer_length := n,
                       buf_tail := (q.buf_tail + 1) % USB_BUFS }) := by
  simp only [usb_callback] at h
  (try (split at h)) <;> (try (split at h)) <;> (try (split at h)) <;>
    (try (split at h))
  all_goals (first
    | (injection h with h2; subst h2; simp_all)
    | simp_all)

theorem cb_completed_empty_in {n : Nat} {ok : Bool} {q q1 : BufferQueue}
    (hemp : q.buf_head = q.buf_tail)
    (h : usb_callback true .completed n ok q = .ok q1) :
    q.pollout = false ∧
      q1 = (if q.shutdown then
              { q with slots := q.slots.set q.buf_tail n,
                       buf_tail := (q.buf_tail + 1) % USB_BUFS }
            else
              { q with slots := q.slots.set q.buf_tail n, pollout := true,
                       xfer_written := 0, xfer_length := n,
                       buf_tail := (q.buf_tail + 1) % USB_BUFS }) := by
  simp only [usb_callback] at h
  (try (split at h)) <;> (try (split at h)) <;> (try (split at h)) <;>
    (try (split at h))
  all_goals (first
    | (injection h with h2; subst h2; simp_all)
    | simp_all)

theorem after_cb_out {s : State} {q : BufferQueue} {st : XferStatus}
    {cal : Nat} {cok : Bool} (h1 : st ≠ .timedOut) :
    after_cb s ⟨false, st, cal, cok⟩ q =
      { s with wq := q, wInFlight := s.wInFlight - 1 } := by
  simp [after_cb, setQueue, h1]

theorem after_cb_in {s : State} {q : BufferQueue} {st : XferStatus}
    {cal : Nat} {cok : Bool} (h1 : st ≠ .timedOut) :
    after_cb s ⟨true, st, cal, cok⟩ q =
      { s with rq := q, rInFlight := s.rInFlight - 1 } := by
  simp [after_cb, setQueue, h1]

theorem after_cb_timedOut {s : State} {q : BufferQueue} {d : Bool}
    {cal : Nat} {cok : Bool} :
    after_cb s ⟨d, .timedOut, cal, cok⟩ q = setQueue s d q := by
  simp [after_cb]

theorem after_cb_counts {s : State} {c : Completion} {q : BufferQueue} :
    (after_cb s c q).wInFlight =
      (if c.status = .timedOut then s.wInFlight
       else if c.dirIn then s.wInFlight else s.wInFlight - 1) ∧
    (after_cb s c q).rInFlight =
      (if c.status = .timedOut then s.rInFlight
       else if c.dirIn then s.rInFlight - 1 else s.rInFlight) := by
  cases hd : c.dirIn <;> by_cases hts : c.status = .timedOut <;>
    simp [after_cb, setQueue, hd, hts]

theorem after_cb_inv {we re : Bool} {s : State} {c : Completion} {q : BufferQueue}
    (inv : Inv we re s)
    (hav : if c.dirIn then 0 < s.rInFlight else 0 < s.wInFlight)
    (hcb : usb_callback c.dirIn c.status c.actualLength c.resubmitOk
      (queueOf s c.dirIn) = .ok q) :
    Inv we re (after_cb s c q) := by
  obtain ⟨cd, cst, cal, cok⟩ := c
  simp only at hav hcb ⊢
  cases cd <;> simp [queueOf] at hav hcb
  · -- OUT direction: the stdin-to-device queue
    have hwe : we = true := by
      by_contra hwe
      have hs := inv.wsum
      rw [Bool.not_eq_true] at hwe
      rw [hwe] at hs
      simp at hs
      omega
    cases cst
    case timedOut =>
      rw [cb_timedOut_ok hcb, after_cb_timedOut]
      exact inv
    case completed =>
      have h1 := inv.wtl
      have h2 := inv.whd
      have hs := inv.wsum
      rw [hwe] at hs
      have hocc : s.wq.buf_head = s.wq.buf_tail := by
        simp [occ, USB_BUFS] at hs h1 h2
        omega
      obtain ⟨hint, hq⟩ := cb_completed_empty_out hocc hcb
      subst hq
      rw [after_cb_out (by decide)]
      constructor
      case weq => exact inv.weq
      case req => exact inv.req
      case wtl => split <;> (simp only [USB_BUFS]; omega)
      case whd => split <;> exact inv.whd
      case rtl => exact inv.rtl
      case rhd => exact inv.rhd
      case wsum => rw [hwe]; split <;> (simp [occ, USB_BUFS] at hs ⊢; omega)
      case rsum => exact inv.rsum
      case wpoll =>
        split
        · rename_i hsd
          intro hp
          simp only at hp
          rw [hint] at hp
          cases hp
        · intro hp
          simp only [USB_BUFS] at h1 h2 ⊢
          omega
      case wpoll2 =>
        split
        · rename_i hsd
          intro hcon
          simp only at hcon
          rw [hsd] at hcon
          cases hcon
        · intro hcon
          simp only
          constructor
          · intro hp2
            simp only [USB_BUFS] at h1 h2 ⊢
            omega
          · intro hp2
            trivial
      case rpoll => exact inv.rpoll
      case rshut => exact inv.rshut
    all_goals
      (rw [cb_terminal_shape (by decide) hcb]
       rw [after_cb_out (by decide)]
       refine ⟨inv.weq, inv.req, inv.wtl, inv.whd, inv.rtl, inv.rhd, ?_,
        inv.rsum, inv.wpoll, inv.wpoll2, inv.rpoll, inv.rshut⟩
       have hs := inv.wsum
       simp only [occ, USB_BUFS] at hs ⊢
       omega)
  · -- IN direction: the device-to-stdout queue
    have hre : re = true := by
      by_contra hre
      have hs := inv.rsum
      rw [Bool.not_eq_true] at hre
      rw [hre] at hs
      simp at hs
      omega
    cases cst
    case timedOut =>
      rw [cb_timedOut_ok hcb, after_cb_timedOut]
      exact inv
    case completed =>
      have h1 := inv.rtl
      have h2 := inv.rhd
      have hs := inv.rsum
      rw [hre] at hs
      have hocc : s.rq.buf_head = s.rq.buf_tail := by
        simp [occ, USB_BUFS] at hs h1 h2
        omega
      obtain ⟨hint, hq⟩ := cb_completed_empty_in hocc hcb
      subst hq
      rw [after_cb_in (by decide)]
      rw [inv.rshut]
      simp only [Bool.false_eq_true, if_false]
      constructor
      case weq => exact inv.weq
      case req => exact inv.req
      case wtl => exact inv.wtl
      case whd => exact inv.whd
      case rtl => simp only [USB_BUFS]; omega
      case rhd => exact inv.rhd
      case wsum => exact inv.wsum
      case rsum => rw [hre]; simp [occ, USB_BUFS] at hs ⊢; omega
      case wpoll => exact inv.wpoll
      case wpoll2 => exact inv.wpoll2
      case rpoll =>
        simp only
        constructor
        · intro hp2
          simp only [USB_BUFS] at h1 h2 ⊢
          omega
        · intro hp2
          trivial
      case rshut => rfl
    all_goals
      (rw [cb_terminal_shape (by decide) hcb]
       rw [after_cb_in (by decide)]
       refine ⟨inv.weq, inv.req, inv.wtl, inv.whd, inv.rtl, inv.rhd, inv.wsum,
        ?_, inv.wpoll, inv.wpoll2, inv.rpoll, inv.rshut⟩
       have hs := inv.rsum
       simp only [occ, USB_BUFS] at hs ⊢
       omega)

theorem legal_batch_mono {cs : List Completion} :
    ∀ {w r w2 r2 : Nat}, legal_batch w r cs = true → w ≤ w2 → r ≤ r2 →
      legal_batch w2 r2 cs = true := by
  induction cs with
  | nil => intro w r w2 r2 h hw hr; simp [legal_batch]
  | cons c cs ih =>
    intro w r w2 r2 h hw hr
    cases hd : c.dirIn <;> cases hst : c.status <;>
      simp [legal_batch, hd, hst] at h ⊢ <;>
      exact ⟨by omega, ih h.2 (by omega) (by omega)⟩

theorem legal_batch_w0 {cs : List Completion} :
    ∀ {r : Nat}, legal_batch 0 r cs = true → ∀ c ∈ cs, c.dirIn = true := by
  induction cs with
  | nil => intro r h c hc; cases hc
  | cons c0 cs ih =>
    intro r h c hc
    rcases List.mem_cons.mp hc with rfl | htail
    · cases hd : c.dirIn <;> cases hst : c.status <;>
        simp [legal_batch, hd, hst] at h ⊢ <;> omega
    · cases hd : c0.dirIn <;> cases hst : c0.status <;>
        simp [legal_batch, hd, hst] at h <;>
        first
          | exact ih h.2 c htail
          | omega

theorem legal_batch_r0 {cs : List Completion} :
    ∀ {w : Nat}, legal_batch w 0 cs = true → ∀ c ∈ cs, c.dirIn = false := by
  induction cs with
  | nil => intro w h c hc; cases hc
  | cons c0 cs ih =>
    intro w h c hc
    rcases List.mem_cons.mp hc with rfl | htail
    · cases hd : c.dirIn <;> cases hst : c.status <;>
        simp [legal_batch, hd, hst] at h ⊢ <;> omega
    · cases hd : c0.dirIn <;> cases hst : c0.status <;>
        simp [legal_batch, hd, hst] at h <;>
        first
          | exact ih h.2 c htail
          | omega

theorem legal_batch_after_terminal {l : List Completion} :
    ∀ {w r : Nat} {c : Completion} {rest : List Completion},
      legal_batch w r (l ++ c :: rest) = true →
      (if c.dirIn then r else w) ≤ 1 →
      isTerminal c.status = true →
      ∀ c2 ∈ rest, c2.dirIn ≠ c.dirIn := by
  induction l with
  | nil =>
    intro w r c rest h hle ht c2 hc2
    cases hd : c.dirIn <;> rw [hd] at hle <;> simp at hle <;>
      simp only [List.nil_append] at h
    · cases hst : c.status <;> rw [hst] at ht <;> simp only [isTerminal] at ht <;>
        try (cases ht)
      all_goals
        (simp [legal_batch, hd, hst] at h
         obtain ⟨hpos, htl⟩ := h
         have h0 : legal_batch 0 r rest = true := by
           have hw : w - 1 = 0 := by omega
           rw [hw] at htl; exact htl
         simp [legal_batch_w0 h0 c2 hc2])
    · cases hst : c.status <;> rw [hst] at ht <;> simp only [isTerminal] at ht <;>
        try (cases ht)
      all_goals
        (simp [legal_batch, hd, hst] at h
         obtain ⟨hpos, htl⟩ := h
         have h0 : legal_batch w 0 rest = true := by
           have hr : r - 1 = 0 := by omega
           rw [hr] at htl; exact htl
         simp [legal_batch_r0 h0 c2 hc2])
  | cons c0 l ih =>
    intro w r c rest h hle ht c2 hc2
    rw [List.cons_append] at h
    cases hd : c0.dirIn <;> cases hst : c0.status <;>
      simp [legal_batch, hd, hst] at h <;>
      refine ih h.2 ?_ ht c2 hc2 <;>
      split <;> split at hle <;> first | omega | simp_all

theorem run_callbacks_inv {we re : Bool} {cs : List Completion} {s s1 : State}
    {acts : List Action}
    (inv : Inv we re s) (hl : legal_batch s.wInFlight s.rInFlight cs = true)
    (h : run_callbacks s cs = .next s1 acts) : Inv we re s1 := by
  induction cs generalizing s acts with
  | nil => cases h; exact inv
  | cons c cs ih =>
    obtain ⟨q, acts2, hcb, hrc, -⟩ := rc_cons_inv h
    cases hd : c.dirIn <;> cases hst : c.status <;>
      simp [legal_batch, hd, hst] at hl <;>
      obtain ⟨hpos, htail⟩ := hl <;>
      have hc := @after_cb_counts s c q <;>
      simp [hd, hst] at hc <;>
      refine ih (after_cb_inv inv (by simp [hd]; exact hpos) hcb) ?_ hrc <;>
      rw [hc.1, hc.2] <;>
      exact htail

theorem legal_stdout_congr {s s2 : State} (hrq : s2.rq = s.rq)
    (hre : s2.read_ep = s.read_ep) (r : Option StdoutR) :
    legal_stdout s2 r = legal_stdout s r := by
  cases r <;> simp [legal_stdout, legal_write, hrq, hre]

theorem handle_stdin_rq {s s1 : State} {r : Option StdinR} {acts : List Action}
    (h : handle_stdin s r = .next s1 acts) :
    s1.rq = s.rq ∧ s1.rInFlight = s.rInFlight ∧ s1.write_ep = s.write_ep ∧
      s1.read_ep = s.read_ep ∧ s.wInFlight ≤ s1.wInFlight := by
  cases r with
  | none => cases h; simp
  | some r =>
    simp only [handle_stdin] at h
    (try (split at h)) <;> (try (split at h)) <;> (try (split at h)) <;>
      (try (split at h)) <;> (try (split at h))
    all_goals (first | (cases h; simp) | cases h)

theorem handle_stdout_wq {s s1 : State} {r : Option StdoutR} {acts : List Action}
    (h : handle_stdout s r = .next s1 acts) :
    s1.wq = s.wq ∧ s1.wInFlight = s.wInFlight ∧ s1.write_ep = s.write_ep ∧
      s1.read_ep = s.read_ep ∧ s.rInFlight ≤ s1.rInFlight := by
  cases r with
  | none => cases h; simp
  | some r =>
    simp only [handle_stdout] at h
    (try (split at h)) <;> (try (split at h)) <;> (try (split at h)) <;>
      (try (split at h)) <;> (try (split at h))
    all_goals (first | (cases h; simp) | cases h)

theorem handle_usb_next {s s1 : State} {u : UsbReady} {acts : List Action}
    (h : handle_usb s (some u) = .next s1 acts) :
    run_callbacks s u.batch = .next s1 acts ∧ u.handleOk = true := by
  simp only [handle_usb] at h
  split at h
  · split at h
    · cases h
      rename_i hok heq
      exact ⟨heq, by simpa using hok⟩
    · cases h
  · cases h
  · cases h

theorem step_ready_next {s s1 : State} {p : PollReady} {acts : List Action}
    (h : step s (.ready p) = .next s1 acts) :
    ∃ sa sb a1 a2 a3,
      handle_stdin s p.stdin = .next sa a1 ∧
      handle_stdout sa p.stdout = .next sb a2 ∧
      handle_usb sb p.usb = .next s1 a3 ∧
      acts = a1 ++ (a2 ++ a3) := by
  simp only [step] at h
  obtain ⟨sa, a1, a23, h1, h23, hacts⟩ := seqH_next h
  obtain ⟨sb, a2, a3, h2, h3, hacts2⟩ := seqH_next h23
  exact ⟨sa, sb, a1, a2, a3, h1, h2, h3, by rw [hacts, hacts2]⟩

theorem step_inv {we re : Bool} {s s1 : State} {e : PollRes} {acts : List Action}
    (inv : Inv we re s) (hl : legal_poll s e = true)
    (h : step s e = .next s1 acts) : Inv we re s1 := by
  cases e with
  | pollFail errno =>
    simp only [step] at h
    split at h
    · cases h; exact inv
    · cases h
  | ready p =>
    obtain ⟨sa, sb, a1, a2, a3, h1, h2, h3, -⟩ := step_ready_next h
    simp only [legal_poll, Bool.and_eq_true] at hl
    obtain ⟨⟨hin, hout⟩, husb⟩ := hl
    have r1 := handle_stdin_inv inv hin h1
    have hout2 : legal_stdout sa p.stdout = true := by
      rw [legal_stdout_congr r1.2.1 (by rw [r1.1.req, inv.req])]
      exact hout
    have r2 := handle_stdout_inv r1.1 hout2 h2
    cases hu : p.usb with
    | none =>
      rw [hu] at h3
      simp only [handle_usb] at h3
      cases h3
      exact r2.1
    | some u =>
      rw [hu] at h3
      obtain ⟨hrc, -⟩ := handle_usb_next h3
      rw [hu] at husb
      have hle : legal_batch sb.wInFlight sb.rInFlight u.batch = true := by
        refine legal_batch_mono husb ?_ ?_
        · rw [r2.2.2.1]; exact r1.2.2.2
        · rw [← r1.2.2.1]; exact r2.2.2.2
      exact run_callbacks_inv r2.1 hle hrc

theorem init_inv (we re : Bool) : Inv we re (init_state we re) := by
  cases we <;> cases re <;>
    exact ⟨rfl, rfl, by decide, by decide, by decide, by decide, by decide,
      by decide, by decide, by decide, by decide, by decide⟩

theorem reach_inv {we re : Bool} {s : State}
    (h : Reach (init_state we re) s) : Inv we re s := by
  induction h with
  | refl => exact init_inv we re
  | more hr hlc hlp hstep ih => exact step_inv ih hlp hstep

theorem cb_completed_tail {d : Bool} {n : Nat} {ok : Bool} {q q1 : BufferQueue}
    (h : usb_callback d .completed n ok q = .ok q1) :
    q1.buf_tail = (q.buf_tail + 1) % USB_BUFS ∧
      q.buf_head ≠ (q.buf_tail + 1) % USB_BUFS := by
  cases d
  all_goals simp only [usb_callback] at h
  all_goals (try (split at h)) <;> (try (split at h)) <;> (try (split at h)) <;>
    (try (split at h)) <;> (try (split at h))
  all_goals (first
    | (injection h with h2; subst h2; simp_all)
    | simp_all)

theorem handle_stdout_no_read {s s1 : State} {r : Option StdoutR}
    {acts : List Action} (h : handle_stdout s r = .next s1 acts) :
    Action.readCall ∉ acts := by
  cases r with
  | none => cases h; simp
  | some r =>
    simp only [handle_stdout] at h
    (try (split at h)) <;> (try (split at h)) <;> (try (split at h)) <;>
      (try (split at h)) <;> (try (split at h))
    all_goals (first | (cases h; simp) | cases h)

theorem reach_readonly {re : Bool} {s : State}
    (h : Reach (init_state false re) s) :
    s.wq = init_wq false ∧ s.wInFlight = 0 := by
  induction h with
  | refl => exact ⟨rfl, rfl⟩
  | more hr hlc hlp hstep ih =>
    rename_i sp s1 e acts
    cases e with
    | pollFail errno =>
      simp only [step] at hstep
      split at hstep
      · cases hstep; exact ih
      · cases hstep
    | ready p =>
      obtain ⟨sa, sb, a1, a2, a3, h1, h2, h3, -⟩ := step_ready_next hstep
      simp only [legal_poll, Bool.and_eq_true] at hlp
      obtain ⟨⟨hin, hout⟩, husb⟩ := hlp
      have hwe : sp.write_ep = false := (reach_inv hr).weq
      have hstdin_none : p.stdin = none := by
        cases hps : p.stdin with
        | none => rfl
        | some rr => rw [hps] at hin; simp [legal_stdin, hwe] at hin
      rw [hstdin_none] at h1
      simp only [handle_stdin] at h1
      cases h1
      have hw2 := handle_stdout_wq h2
      cases hu : p.usb with
      | none =>
        rw [hu] at h3
        simp only [handle_usb] at h3
        cases h3
        exact ⟨hw2.1.trans ih.1, hw2.2.1.trans ih.2⟩
      | some u =>
        rw [hu] at h3
        obtain ⟨hrc, -⟩ := handle_usb_next h3
        rw [hu] at husb
        have h0 : legal_batch 0 sp.rInFlight u.batch = true := by
          rw [← ih.2]; exact husb
        have hall := legal_batch_w0 h0
        have hrq := rc_dirIn_only hall hrc
        exact ⟨(hrq.1.trans hw2.1).trans ih.1, (hrq.2.trans hw2.2.1).trans ih.2⟩

/- ------------------------------------------------------------------
Claim theorems.
------------------------------------------------------------------ -/

/-- Claim C1, counterexample: from the bidirectional initial state a single
legal poll result delivering a stall completion sets the inbound error
flag, the loop exits because of it, and the process exits with code 0 (the
code after the loop returns EXIT_SUCCESS unconditionally), contradicting
the claim that an error-flag exit yields a non-zero exit code. -/
theorem C1_counterexample :
    legal_poll (init_state true true) ev_stall_in = true ∧
      step (init_state true true) ev_stall_in = .next s_errored [] ∧
      s_errored.rq.error = true ∧
      run [ev_stall_in] (init_state true true) = (.exited 0, []) :=
  ⟨by decide, by decide, rfl, by decide⟩

/-- Claim C1, amended: whenever the while loop exits via its condition,
whether because an error flag was set by a transport completion or because
of the clean shutdown-drain condition, the process exits with code 0; a
non-zero exit code arises only from the fatal paths inside the loop body
(read/write/submit/poll/handle-events failures), which bypass the loop
condition entirely. -/
theorem C1_amended :
    (∀ (s : State) (evs : List PollRes), loop_continue s = false →
        run evs s = (.exited 0, [])) ∧
      (∀ (s : State) (e : PollRes) (evs : List PollRes) (acts : List Action),
        loop_continue s = true → step s e = .fatal acts →
        run (e :: evs) s = (.exited 1, acts)) := by
  constructor
  · intro s evs h
    exact run_loop_exit h evs
  · intro s e evs acts hlc hf
    simp [run, hlc, hf]

/-- Claim C1, witness for the amended claim at a concrete error state. -/
theorem C1_witness : run [] s_errored = (.exited 0, []) :=
  C1_amended.1 s_errored [] (by decide)

/-- Claim C2, counterexample: a read failure with errno EAGAIN
(would-block) on a ready stdin is not a silent no-op: the process reports
the error and exits with code 1. -/
theorem C2_counterexample :
    legal_poll (init_state true true) ev_eagain = true ∧
      run [ev_eagain] (init_state true true) = (.exited 1, [.readCall]) :=
  ⟨by decide, by decide⟩

/-- Claim C2, amended: for reads from stdin and writes to stdout performed
by the loop, only a failure with errno EINTR is a silent no-op retried on a
later iteration; a failure with any other errno, including
EAGAIN/EWOULDBLOCK, is fatal. -/
theorem C2_amended :
    (∀ (s : State) (r : StdinR) (errno : Nat),
      r.pollin = true → s.wq.pollin = true →
      s.wq.buf_head ≠ s.wq.buf_tail → r.rd = .failed errno →
      handle_stdin s (some r) =
        (if errno = EINTR then .next s [.readCall] else .fatal [.readCall])) ∧
    (∀ (s : State) (r : StdoutR) (errno : Nat),
      r.pollout = true → s.rq.pollout = true →
      s.rq.buf_head ≠ s.rq.buf_tail → r.wr = .failed errno →
      handle_stdout s (some r) =
        (if errno = EINTR then
          .next s [.writeCall s.rq.xfer_written (s.rq.xfer_length - s.rq.xfer_written)]
         else
          .fatal [.writeCall s.rq.xfer_written (s.rq.xfer_length - s.rq.xfer_written)])) := by
  constructor
  · intro s r errno h1 h2 h3 h4
    simp [handle_stdin, h1, h2, h3, h4]
  · intro s r errno h1 h2 h3 h4
    simp [handle_stdout, h1, h2, h3, h4]

/-- Claim C2, witness: an EINTR read failure is a no-op. -/
theorem C2_witness :
    handle_stdin (init_state true true) (some ⟨true, false, .failed EINTR⟩) =
      .next (init_state true true) [.readCall] := by
  have h := C2_amended.1 (init_state true true) ⟨true, false, .failed EINTR⟩
    EINTR rfl (by decide) (by decide) rfl
  simpa using h

/-- Claim C4: the loop exits exactly when an error flag is set or the
outbound queue is shut down and drained (advancing its tail by one modulo
USB_BUFS would collide with its head); while neither holds, the loop polls
again (another iteration). -/
theorem C4_termination_predicate :
    ∀ s : State,
      (loop_continue s = false ↔
        (s.wq.error = true ∨ s.rq.error = true ∨
          (s.wq.shutdown = true ∧
            (s.wq.buf_tail + 1) % USB_BUFS = s.wq.buf_head))) ∧
      (loop_continue s = true → run [] s = (.blocked s, [])) := by
  intro s
  constructor
  · cases hwe : s.wq.error <;> cases hre : s.rq.error <;>
      cases hsd : s.wq.shutdown <;>
      by_cases hne : (s.wq.buf_tail + 1) % USB_BUFS = s.wq.buf_head <;>
      simp [loop_continue, hwe, hre, hsd, bne_iff_ne, hne]
  · intro hlc
    simp [run, hlc]

/-- Claim C4, witness: at the drained shutdown state the predicate holds
and at the initial state the loop keeps polling. -/
theorem C4_witness : run [] (init_state true true) = (.blocked (init_state true true), []) :=
  (C4_termination_predicate (init_state true true)).2 (by decide)

/-- Claim C5: the stdout handler is entered on POLLHUP / POLLERR without
checking POLLOUT or queue occupancy, so with the inbound ring empty the
`assert(q->buf_head != q->buf_tail)` at usbcat.c line 455 fails and the
process aborts: this poll result is legal (POSIX reports POLLHUP / POLLERR
regardless of the requested events), so the claim that these asserts never
fail is contradicted by the code. -/
theorem C5_assert_can_fail :
    legal_poll (init_state true true) ev_hup_stdout = true ∧
      run [ev_hup_stdout] (init_state true true) = (.aborted, []) :=
  ⟨by decide, by decide⟩

/-- Claim C6, counterexample: in the reachable state `s_drain` (one
outbound buffer in flight, shutdown set via POLLHUP), the successful
completion placed at tail moves the queue from empty to non-empty, yet
POLLIN interest is NOT asserted, because the callback checks the shutdown
flag first; this contradicts the claim that the empty-to-non-empty
transition always asserts the interest mask. -/
theorem C6_counterexample :
    Reach (init_state true true) s_drain ∧
      legal_poll s_drain ev_complete_out = true ∧
      s_drain.wq.buf_head = s_drain.wq.buf_tail ∧
      step s_drain ev_complete_out = .next s_after_drain [] ∧
      s_after_drain.wq.buf_head ≠ s_after_drain.wq.buf_tail ∧
      s_after_drain.wq.pollin = false := by
  refine ⟨?_, by decide, by decide, by decide, by decide, by decide⟩
  exact @Reach.more (init_state true true) s_inflight s_drain ev_hup_stdin []
    (@Reach.more (init_state true true) (init_state true true) s_inflight
      ev_read1 [.readCall, .submitOut 1] Reach.refl (by decide) (by decide)
      (by decide))
    (by decide) (by decide) (by decide)

/-- Claim C6, amended: in every reachable state, the inbound queue's
POLLOUT interest is asserted if and only if the queue is non-empty; the
outbound queue's POLLIN interest implies a free slot exists, and while the
outbound direction is not shut down POLLIN is asserted if and only if a
free slot exists.  After shutdown the empty-to-non-empty transition does
not re-assert interest. -/
theorem C6_amended {we re : Bool} {s : State}
    (h : Reach (init_state we re) s) :
    (s.rq.pollout = true ↔ s.rq.buf_head ≠ s.rq.buf_tail) ∧
      (s.wq.pollin = true → s.wq.buf_head ≠ s.wq.buf_tail) ∧
      (s.wq.shutdown = false →
        (s.wq.pollin = true ↔ s.wq.buf_head ≠ s.wq.buf_tail)) := by
  have inv := reach_inv h
  exact ⟨inv.rpoll, inv.wpoll, inv.wpoll2⟩

/-- Claim C6, witness at the initial bidirectional state. -/
theorem C6_witness :
    ((init_state true true).rq.pollout = true ↔
      (init_state true true).rq.buf_head ≠ (init_state true true).rq.buf_tail) ∧
      ((init_state true true).wq.pollin = true →
        (init_state true true).wq.buf_head ≠ (init_state true true).wq.buf_tail) :=
  ⟨(C6_amended Reach.refl).1, (C6_amended Reach.refl).2.1⟩

/-- Claim C8: with an inbound buffer of length L at the head, cursor at w,
a write consuming k < L - w bytes advances the cursor to w + k without
advancing the head or re-submitting; the next write call resumes at offset
w + k with span L - (w + k); and the buffer is re-submitted with the head
advanced exactly when the cumulative count reaches L. -/
theorem C8_partial_write {s : State} {w L k : Nat} {ok : Bool}
    (hne : s.rq.buf_head ≠ s.rq.buf_tail)
    (hpo : s.rq.pollout = true)
    (hw : s.rq.xfer_written = w) (hL : s.rq.xfer_length = L)
    (hk : w + k < L) :
    handle_stdout s (some ⟨true, false, .wrote k ok⟩) =
      .next { s with rq := { s.rq with xfer_written := w + k } }
        [.writeCall w (L - w)] ∧
      (∀ r2 : StdoutR, r2.pollout = true →
        ∃ rest, hres_acts
            (handle_stdout { s with rq := { s.rq with xfer_written := w + k } }
              (some r2)) =
          .writeCall (w + k) (L - (w + k)) :: rest) ∧
      (∀ k2 : Nat, w + k2 = L →
        ∃ s2, handle_stdout s (some ⟨true, false, .wrote k2 true⟩) =
            .next s2 [.writeCall w (L - w), .submitIn] ∧
          s2.rq.buf_head = (s.rq.buf_head + 1) % USB_BUFS) := by
  refine ⟨?_, ?_, ?_⟩
  · simp [handle_stdout, hpo, hne, hw, hL, Nat.ne_of_lt hk]
  · intro r2 hr2
    simp only [handle_stdout, hr2, hpo, Bool.and_self, Bool.true_or,
      if_true, true_and]
    rw [if_neg hne]
    simp only [hw, hL]
    split
    · split
      · split
        · exact ⟨[.submitIn], rfl⟩
        · exact ⟨[.submitIn], rfl⟩
      · exact ⟨[], rfl⟩
    · split
      · exact ⟨[], rfl⟩
      · exact ⟨[], rfl⟩
  · intro k2 hk2
    simp only [handle_stdout, hpo, Bool.and_self, Bool.true_or, if_true,
      Bool.and_true, true_and]
    rw [if_neg hne]
    simp only [hw, hL, hk2, if_pos rfl, if_pos trivial]
    refine ⟨_, rfl, ?_⟩
    split <;> simp

/-- Claim C8, witness at a concrete 10-byte buffer with a 3-byte write. -/
theorem C8_witness :
    handle_stdout s_c8 (some ⟨true, false, .wrote 3 true⟩) =
      .next { s_c8 with rq := { s_c8.rq with xfer_written := 3 } }
        [.writeCall 0 10] := by
  have h := (@C8_partial_write s_c8 0 10 3 true (by decide) (by decide)
    rfl rfl (by decide)).1
  simpa using h

/-- Claim C9: in read-only operation (no write endpoint) the outbound queue
keeps head = tail = 0, its shutdown flag is never set, so the
shutdown-and-drained disjunct of the termination predicate is unsatisfiable
and a loop-condition exit implies an error flag; moreover no loop step ever
performs a read call on stdin. -/
theorem C9_read_only {s : State} (h : Reach (init_state false true) s) :
    s.wq.buf_head = 0 ∧ s.wq.buf_tail = 0 ∧ s.wq.shutdown = false ∧
      (loop_continue s = false → s.rq.error = true) ∧
      (∀ (e : PollRes) (s1 : State) (acts : List Action),
        legal_poll s e = true → step s e = .next s1 acts →
        Action.readCall ∉ acts) := by
  have hro := reach_readonly h
  have hwq := hro.1
  refine ⟨by rw [hwq]; rfl, by rw [hwq]; rfl, by rw [hwq]; rfl, ?_, ?_⟩
  · intro hlc
    simp only [loop_continue, hwq] at hlc
    simp only [init_wq] at hlc
    simp at hlc
    exact hlc
  · intro e s1 acts hlp hstep
    cases e with
    | pollFail errno =>
      simp only [step] at hstep
      split at hstep
      · cases hstep; simp
      · cases hstep
    | ready p =>
      obtain ⟨sa, sb, a1, a2, a3, h1, h2, h3, hacts⟩ := step_ready_next hstep
      simp only [legal_poll, Bool.and_eq_true] at hlp
      obtain ⟨⟨hin, hout⟩, husb⟩ := hlp
      have hwe : s.write_ep = false := (reach_inv h).weq
      have hstdin_none : p.stdin = none := by
        cases hps : p.stdin with
        | none => rfl
        | some rr => rw [hps] at hin; simp [legal_stdin, hwe] at hin
      rw [hstdin_none] at h1
      simp only [handle_stdin] at h1
      cases h1
      subst hacts
      intro hmem
      rcases List.mem_append.mp hmem with hm | hm
      · cases hm
      rcases List.mem_append.mp hm with hm2 | hm2
      · exact handle_stdout_no_read h2 hm2
      · cases hu : p.usb with
        | none =>
          rw [hu] at h3
          simp only [handle_usb] at h3
          cases h3
          cases hm2
        | some u =>
          rw [hu] at h3
          obtain ⟨hrc, -⟩ := handle_usb_next h3
          obtain ⟨d, hd⟩ := rc_acts_resubmit hrc _ hm2
          cases hd

/-- Claim C9, witness at the read-only initial state. -/
theorem C9_witness :
    (init_state false true).wq.buf_head = 0 ∧
      (init_state false true).wq.buf_tail = 0 ∧
      (init_state false true).wq.shutdown = false := by
  have h := C9_read_only Reach.refl
  exact ⟨h.1, h.2.1, h.2.2.1⟩

/-- Claim C10: exactly USB_BUFS - 1 = 1 transfer/buffer pair is allocated
per enabled direction, and in every reachable state each direction has at
most one buffer in flight or queued, never one in flight and another
queued simultaneously. -/
theorem C10_single_buffer {we re : Bool} {s : State}
    (h : Reach (init_state we re) s) :
    buffers_per_direction = 1 ∧
      s.wInFlight + occ s.wq ≤ 1 ∧ s.rInFlight + occ s.rq ≤ 1 ∧
      ¬(0 < s.wInFlight ∧ 0 < occ s.wq) ∧
      ¬(0 < s.rInFlight ∧ 0 < occ s.rq) := by
  have inv := reach_inv h
  have h1 := inv.wsum
  have h2 := inv.rsum
  refine ⟨rfl, ?_, ?_, ?_, ?_⟩ <;>
    cases we <;> cases re <;> simp [USB_BUFS] at h1 h2 <;> omega

/-- Claim C10, witness at the bidirectional initial state. -/
theorem C10_witness :
    buffers_per_direction = 1 ∧
      (init_state true true).wInFlight + occ (init_state true true).wq ≤ 1 := by
  have h := @C10_single_buffer true true (init_state true true) Reach.refl
  exact ⟨h.1, h.2.1⟩

/-- Claim C7: a transport completion with a terminal status (error,
cancelled, stall, device-gone, overflow) sets the direction's error flag;
the loop then exits at the very next condition check with no further
actions of any kind (in particular no further submissions on that
direction), and within the same callback batch no completion of that
direction can legally follow the terminal one, so no re-submission of that
direction happens after the error either. -/
theorem C7_terminal_error {we re : Bool} {s s1 : State} {p : PollReady}
    {u : UsbReady} {acts : List Action} {c : Completion}
    (hr : Reach (init_state we re) s)
    (hl : legal_poll s (.ready p) = true)
    (hstep : step s (.ready p) = .next s1 acts)
    (hu : p.usb = some u) (hc : c ∈ u.batch) (ht : isTerminal c.status = true) :
    (if c.dirIn then s1.rq.error else s1.wq.error) = true ∧
      (∀ evs, run evs s1 = (.exited 0, [])) ∧
      (∀ l rest, u.batch = l ++ c :: rest →
        ∀ c2 ∈ rest, c2.dirIn ≠ c.dirIn) := by
  obtain ⟨sa, sb, a1, a2, a3, h1, h2, h3, -⟩ := step_ready_next hstep
  rw [hu] at h3
  obtain ⟨hrc, -⟩ := handle_usb_next h3
  have herr := rc_terminal_error hrc hc ht
  refine ⟨herr, ?_, ?_⟩
  · intro evs
    apply run_loop_exit _ evs
    revert herr
    cases c.dirIn <;> simp <;> intro h <;> simp [loop_continue, h]
  · intro l rest hb c2 hc2
    simp only [legal_poll, Bool.and_eq_true] at hl
    obtain ⟨-, husb⟩ := hl
    rw [hu] at husb
    simp only at husb
    have inv := reach_inv hr
    have hb1 : s.wInFlight ≤ 1 := by
      have hx := inv.wsum
      cases we <;> simp [USB_BUFS] at hx <;> omega
    have hb2 : s.rInFlight ≤ 1 := by
      have hx := inv.rsum
      cases re <;> simp [USB_BUFS] at hx <;> omega
    rw [hb] at husb
    have hle : (if c.dirIn then s.rInFlight else s.wInFlight) ≤ 1 := by
      split
      · exact hb2
      · exact hb1
    exact legal_batch_after_terminal husb hle ht c2 hc2

/-- Claim C7, witness: a stall completion at the initial state. -/
theorem C7_witness :
    s_errored.rq.error = true ∧ run [] s_errored = (.exited 0, []) := by
  have h := @C7_terminal_error true true (init_state true true) s_errored
    pr_stall u_stall [] cmp_stall Reach.refl (by decide) (by decide) rfl
    (by decide) (by decide)
  exact ⟨by simpa [cmp_stall] using h.1, h.2.1 []⟩

/-- Claim C3, counterexample: from the reachable bidirectional initial
state a zero-length read sets the shutdown flag while NO buffer is in
flight, and the loop terminates immediately — with the read as its only
action and without observing any transport completion — contradicting the
claim that after the zero-length read the loop terminates only after the
in-flight buffer's completion is observed with exactly one buffer in
flight at shutdown. -/
theorem C3_counterexample :
    legal_poll (init_state true true) ev_eof = true ∧
      step (init_state true true) ev_eof =
        .next { init_state true true with
                  wq := { init_wq true with shutdown := true } } [.readCall] ∧
      { init_state true true with
          wq := { init_wq true with shutdown := true } }.wInFlight = 0 ∧
      run [ev_eof] (init_state true true) = (.exited 0, [.readCall]) :=
  ⟨by decide, by decide, rfl, by decide⟩

/-- Claim C3, amended: a zero-length read can only happen while the
outbound ring has a free slot, and with USB_BUFS = 2 the termination
predicate then already holds, so after the read that returned zero the
loop terminates at once, performing no further reads and not waiting for
any completion.  When instead the shutdown flag is raised by POLLHUP while
the single buffer is in flight (the reachable state `s_drain`), the loop
keeps running, performs no read call in any step, and exits cleanly only
once the outbound completion is observed: if a legal step carries it from
`s_drain` to a state where the loop condition fails without error flags,
the poll result contained a successful outbound completion. -/
theorem C3_amended :
    (∀ (re : Bool) (s s1 : State) (p : PollReady) (r : StdinR)
        (acts : List Action),
      Reach (init_state true re) s →
      legal_poll s (.ready p) = true →
      p.stdin = some r → r.pollin = true → r.rd = .eof →
      step s (.ready p) = .next s1 acts →
      s1.wq.shutdown = true ∧ loop_continue s1 = false ∧
        ∀ evs, run evs s1 = (.exited 0, [])) ∧
    (Reach (init_state true true) s_drain ∧ loop_continue s_drain = true ∧
      ∀ (e : PollRes) (s1 : State) (acts : List Action),
        legal_poll s_drain e = true → step s_drain e = .next s1 acts →
        Action.readCall ∉ acts ∧
        (s1.wq.error = false → s1.rq.error = false →
          loop_continue s1 = false →
          ∃ p u c, e = .ready p ∧ p.usb = some u ∧ c ∈ u.batch ∧
            c.dirIn = false ∧ c.status = .completed)) := by
  constructor
  · intro re s s1 p r acts hr hl hps hpi hrd hstep
    have inv := reach_inv hr
    obtain ⟨sa, sb, a1, a2, a3, h1, h2, h3, -⟩ := step_ready_next hstep
    simp only [legal_poll, Bool.and_eq_true] at hl
    obtain ⟨⟨hin, hout⟩, husb⟩ := hl
    rw [hps] at hin h1
    simp only [legal_stdin, Bool.and_eq_true] at hin
    have hpl : s.wq.pollin = true := by
      have hx := hin.2
      rw [hpi] at hx
      simp at hx
      exact hx.1
    have hne : s.wq.buf_head ≠ s.wq.buf_tail := inv.wpoll hpl
    simp only [handle_stdin, hpi, hpl, hrd, Bool.and_self, Bool.true_or,
      if_true, if_neg hne] at h1
    cases h1
    have hw2 := handle_stdout_wq h2
    have hb1 := inv.wtl
    have hb2 := inv.whd
    have hwz : s.wInFlight = 0 := by
      have hx := inv.wsum
      simp [occ, USB_BUFS] at hx hb1 hb2
      omega
    have hfields : s1.wq.shutdown = true ∧ s1.wq.buf_tail = s.wq.buf_tail ∧
        s1.wq.buf_head = s.wq.buf_head := by
      cases hu : p.usb with
      | none =>
        rw [hu] at h3
        simp only [handle_usb] at h3
        cases h3
        rw [hw2.1]
        simp
      | some u =>
        rw [hu] at h3
        obtain ⟨hrc, -⟩ := handle_usb_next h3
        rw [hu] at husb
        simp only at husb
        rw [hwz] at husb
        have hall := legal_batch_w0 husb
        rw [(rc_dirIn_only hall hrc).1, hw2.1]
        simp
    have hdrain : (s1.wq.buf_tail + 1) % USB_BUFS = s1.wq.buf_head := by
      rw [hfields.2.1, hfields.2.2]
      simp only [USB_BUFS] at hb1 hb2 ⊢
      omega
    have hlc1 : loop_continue s1 = false := by
      simp [loop_continue, hfields.1, bne_iff_ne, hdrain]
    exact ⟨hfields.1, hlc1, run_loop_exit hlc1⟩
  · refine ⟨?_, by decide, ?_⟩
    · exact @Reach.more (init_state true true) s_inflight s_drain ev_hup_stdin []
        (@Reach.more (init_state true true) (init_state true true) s_inflight
          ev_read1 [.readCall, .submitOut 1] Reach.refl (by decide) (by decide)
          (by decide))
        (by decide) (by decide) (by decide)
    · intro e s1 acts hlp hstep
      cases e with
      | pollFail errno =>
        simp only [step] at hstep
        split at hstep
        · cases hstep
          exact ⟨by simp, fun _ _ hlc => absurd hlc (by decide)⟩
        · cases hstep
      | ready p =>
        obtain ⟨sa, sb, a1, a2, a3, h1, h2, h3, hacts⟩ := step_ready_next hstep
        simp only [legal_poll, Bool.and_eq_true] at hlp
        obtain ⟨⟨hin, hout⟩, husb⟩ := hlp
        have hsa : sa = s_drain ∧ a1 = [] := by
          cases hps : p.stdin with
          | none =>
            rw [hps] at h1
            simp only [handle_stdin] at h1
            cases h1
            exact ⟨rfl, rfl⟩
          | some rr =>
            rw [hps] at h1 hin
            simp only [legal_stdin, Bool.and_eq_true] at hin
            have hpl : rr.pollin = false := by
              cases hrrp : rr.pollin
              · rfl
              · exfalso
                have hx := hin.2
                rw [hrrp] at hx
                simp at hx
                exact absurd hx.1 (by decide)
            simp only [handle_stdin, hpl, Bool.false_and, Bool.false_or,
              if_false] at h1
            cases hup : rr.hupErr
            · rw [hup] at h1
              simp at h1
              refine ⟨?_, ?_⟩ <;>
                first
                  | exact h1.1
                  | exact h1.1.symm
                  | exact h1.2
                  | exact h1.2.symm
            · rw [hup] at h1
              simp at h1
              have hsame :
                  ({ s_drain with
                      wq := { s_drain.wq with shutdown := true } } : State) =
                    s_drain := by decide
              rw [hsame] at h1
              refine ⟨?_, ?_⟩ <;>
                first
                  | exact h1.1
                  | exact h1.1.symm
                  | exact h1.2
                  | exact h1.2.symm
        have hsb : sb = s_drain ∧ a2 = [] := by
          rw [hsa.1] at h2
          cases hpo : p.stdout with
          | none =>
            rw [hpo] at h2
            simp only [handle_stdout] at h2
            cases h2
            exact ⟨rfl, rfl⟩
          | some rr =>
            rw [hpo] at h2 hout
            simp only [legal_stdout, Bool.and_eq_true] at hout
            have hplo : rr.pollout = false := by
              cases hrrp : rr.pollout
              · rfl
              · exfalso
                have hx := hout.1.2
                rw [hrrp] at hx
                simp at hx
                exact absurd hx (by decide)
            have hup : rr.hupErr = true := by
              have hx := hout.1.1.2
              rw [hplo] at hx
              simpa using hx
            simp only [handle_stdout, hplo, hup, Bool.false_and,
              Bool.or_true, if_true] at h2
            rw [if_pos (by decide : s_drain.rq.buf_head = s_drain.rq.buf_tail)] at h2
            cases h2
        rw [hsb.1] at h3
        subst hacts
        rw [hsa.2, hsb.2]
        simp only [List.nil_append]
        cases hu : p.usb with
        | none =>
          rw [hu] at h3
          simp only [handle_usb] at h3
          cases h3
          exact ⟨by simp, fun _ _ hlc => absurd hlc (by decide)⟩
        | some u =>
          rw [hu] at h3
          obtain ⟨hrc, -⟩ := handle_usb_next h3
          constructor
          · intro hmem
            obtain ⟨d, hd⟩ := rc_acts_resubmit hrc _ hmem
            cases hd
          · intro herr1 herr2 hlc
            have hpres := rc_preserved hrc
            have hdr : (s1.wq.buf_tail + 1) % USB_BUFS = s1.wq.buf_head := by
              simp only [loop_continue, herr1, herr2, Bool.not_false,
                Bool.true_and] at hlc
              have hsd : s1.wq.shutdown = true := by
                rw [hpres.2.2.1]
                decide
              rw [hsd] at hlc
              simp [bne_iff_ne] at hlc
              exact hlc
            have hne2 : s1.wq.buf_tail ≠ s_drain.wq.buf_tail := by
              rw [hpres.1, (by decide : s_drain.wq.buf_head = 1)] at hdr
              intro hcon
              rw [hcon, (by decide : s_drain.wq.buf_tail = 1)] at hdr
              simp [USB_BUFS] at hdr
            obtain ⟨c, hcmem, hcd, hcs⟩ := rc_tail_completed hrc hne2
            exact ⟨p, u, c, rfl, hu, hcmem, hcd, hcs⟩

/-- Claim C3, witness for the amended claim: the immediate-exit part at the
initial state, and the drain part at `s_drain` with the outbound
completion. -/
theorem C3_witness :
    loop_continue s_drain = true ∧
      Action.readCall ∉ ([] : List Action) ∧
      loop_continue s_after_drain = false := by
  have hA := C3_amended.2
  have hB := hA.2.2 ev_complete_out s_after_drain []
    (by decide) (by decide)
  exact ⟨hA.2.1, hB.1, by decide⟩

end Usbcat
